import Mathlib

/-!
# Verification of the blockchain-in-go transaction ledger core

Shallow embedding of the repository's ledger core: the `State` type with its
`Balances` map and `txMempool`, the `apply`/`Add` state-transition functions,
`Persist` (mempool drain to the append-only log) and `NewStateFromDisk`
(genesis seeding plus full log replay).  The embedding follows the
monolithic variant in the repository's main package (`State`, `apply`, `Add`,
`Persist`, `NewStateFromDisk`); the `practice/monolithicEventVsTransactionState`
package contains a structurally identical copy of the same functions.

Modelling conventions:
* Go `uint` is 64 bits wide on the platforms this repository targets; machine
  arithmetic on balances is `Nat` reduced modulo `uintW = 2 ^ 64` wherever the
  Go code can overflow (the credit `+=`).  The debit `-=` is guarded by the
  insufficient-balance check `tx.Value > Balances[tx.From]`, so Go's wrapping
  subtraction coincides with truncated `Nat` subtraction there.
* The Go map `map[Account]uint` is modelled as an association list.  Reading
  `m[k]` of an absent key yields the zero value without inserting; the
  compound assignments `m[k] -= v` / `m[k] += v` write the key back, inserting
  it when absent — `mapGet` / `mapSet` reproduce both behaviours.
* File-system effects are made explicit parameters: the transaction log is a
  value (a list of frames, each either a decoded `Tx` or a corrupt frame),
  `os.OpenFile` without `O_CREATE` on a missing path is the `none` case of an
  `Option` log, and each `Write` during `Persist` may fail according to a
  failure oracle indexed by loop position.
-/

namespace BlockchainInGo

/-- Go: `type Account string` (an opaque string identifier). -/
abbrev Account := String

/-- The modulus of Go `uint` arithmetic on the 64-bit platforms the
repository targets: `2 ^ 64`. -/
def uintW : Nat := 2 ^ 64

/-- Go: `type Tx struct { From Account; To Account; Value uint; Data string }`. -/
structure Tx where
  From : Account
  To : Account
  Value : Nat
  Data : String
deriving DecidableEq, Repr

/-- Go: `func (t Tx) IsReward() bool { return t.Data == "reward" }`. -/
def Tx.IsReward (t : Tx) : Bool := t.Data == "reward"

/-- The in-memory balance table `map[Account]uint`, as an association list. -/
abbrev Balances := List (Account × Nat)

/-- First binding of a key in the association list, `none` when absent. -/
def lookupA : Balances → Account → Option Nat
  | [], _ => none
  | (k, v) :: rest, a => if a = k then some v else lookupA rest a

/-- Go map read `m[k]`: the stored value, or the `uint` zero value `0` when
the key is absent (no insertion happens on a read). -/
def mapGet (b : Balances) (a : Account) : Nat := (lookupA b a).getD 0

/-- Go map write `m[k] = v`: overwrite the existing binding, or insert the
key when absent. -/
def mapSet : Balances → Account → Nat → Balances
  | [], k, v => [(k, v)]
  | (k', v') :: rest, k, v =>
    if k' = k then (k, v) :: rest else (k', v') :: mapSet rest k v

/-- Whether the key is present in the map (Go: `_, ok := m[k]`). -/
def hasKey (b : Balances) (a : Account) : Bool := (lookupA b a).isSome

/-- The body of Go's `func (s *State) apply(tx Tx) error`, which reads and
writes only the `Balances` field of the receiver, factored as a function of
the balance table:

* reward: `s.Balances[tx.To] += tx.Value` (wrapping `uint` addition),
  unconditional success;
* otherwise, fail when `tx.Value > s.Balances[tx.From]` with
  `fmt.Errorf("insufficient balance for %s", tx.From)`;
* on success, `s.Balances[tx.From] -= tx.Value` (the guard makes the
  wrapping subtraction exact) then `s.Balances[tx.To] += tx.Value`,
  in that order. -/
def applyBal (b : Balances) (tx : Tx) : Except String Balances :=
  if tx.IsReward then
    .ok (mapSet b tx.To ((mapGet b tx.To + tx.Value) % uintW))
  else if mapGet b tx.From < tx.Value then
    .error ("insufficient balance for " ++ tx.From)
  else
    let b1 := mapSet b tx.From (mapGet b tx.From - tx.Value)
    .ok (mapSet b1 tx.To ((mapGet b1 tx.To + tx.Value) % uintW))

/-- Go: `type State struct { Balances map[Account]uint; txMempool []Tx }`
(the `dbFile *os.File` handle is passed explicitly to the operations that
use it instead of being stored). -/
structure State where
  Balances : Balances
  txMempool : List Tx
deriving DecidableEq, Repr

/-- Go: `func (s *State) apply(tx Tx) error`.  On the error paths the Go
method returns before performing any map write, so an `error` result leaves
the caller's state untouched. -/
def State.apply (s : State) (tx : Tx) : Except String State :=
  match applyBal s.Balances tx with
  | .error e => .error e
  | .ok b => .ok { s with Balances := b }

/-- Go: `func (s *State) Add(tx Tx) error` — apply, then append the
transaction to the mempool tail; on apply failure return the error with no
mutation. -/
def State.Add (s : State) (tx : Tx) : Except String State :=
  match s.apply tx with
  | .error e => .error e
  | .ok s' => .ok { s' with txMempool := s'.txMempool ++ [tx] }

/-- The caller's view after `Add` returns: the state the receiver holds
afterwards paired with the returned error.  On failure the receiver is
exactly the pre-call state, because the Go error path returns before any
map or mempool write. -/
def State.AddResult (s : State) (tx : Tx) : State × Option String :=
  match State.Add s tx with
  | .ok s' => (s', none)
  | .error e => (s, some e)

/-- A sequence of `Add` calls, stopping at the first failure. -/
def addAll (s : State) : List Tx → Except String State
  | [] => .ok s
  | tx :: rest =>
    match State.Add s tx with
    | .error e => .error e
    | .ok s' => addAll s' rest

/-- Errors of `NewStateFromDisk`: the log file cannot be opened
(`os.OpenFile` without `O_CREATE` fails), a log frame fails to decode
(`json.Unmarshal` error), or replaying a decoded record fails
(`state.apply` error). -/
inductive InitError where
  | storeUnavailable
  | corruptRecord
  | applyFailed (msg : String)
deriving DecidableEq, Repr

/-- Go: `type Genesis struct { GenesisTime string; ChainID string;
Balances map[Account]uint }`. -/
structure Genesis where
  GenesisTime : String
  ChainID : String
  Balances : Balances
deriving DecidableEq, Repr

/-- The genesis-seeding loop of `NewStateFromDisk`:
`for account, balance := range gen.Balances { balances[account] = balance }`
into a freshly made empty map. -/
def initBalances (g : Balances) : Balances :=
  g.foldl (fun b kv => mapSet b kv.1 kv.2) []

/-- The scanner loop of `NewStateFromDisk`: one frame per line; a frame that
fails `json.Unmarshal` (modelled `none`) aborts with `corruptRecord`; a
decoded record is fed to `apply`, whose failure also aborts. -/
def replayFrames (b : Balances) : List (Option Tx) → Except InitError Balances
  | [] => .ok b
  | none :: _ => .error .corruptRecord
  | some tx :: rest =>
    match applyBal b tx with
    | .error e => .error (.applyFailed e)
    | .ok b' => replayFrames b' rest

/-- Go: `func NewStateFromDisk() (*State, error)` — seed balances from the
(already loaded) genesis snapshot, open the transaction log with
`os.OpenFile(path, os.O_APPEND|os.O_RDWR, 0600)` (which does **not** create
a missing file: that is the `none` log, yielding `storeUnavailable`), then
replay every frame in file order through `apply`.  The returned state has
`txMempool := make([]Tx, 0)`, untouched by the replay loop. -/
def NewStateFromDisk (gen : Genesis) (db : Option (List (Option Tx))) :
    Except InitError State :=
  match db with
  | none => .error .storeUnavailable
  | some frames =>
    match replayFrames (initBalances gen.Balances) frames with
    | .error e => .error e
    | .ok b => .ok { Balances := b, txMempool := [] }

/-- The loop of `Persist` over the snapshot copy of the mempool, indexed by
the loop counter `i`.  `wOk i` tells whether the `dbFile.Write` of the
`i`-th snapshot entry succeeds (`json.Marshal` of a `Tx` cannot fail).  On a
successful write the entry's bytes are in the file and the front of the
**live** mempool is dropped (`s.txMempool = s.txMempool[1:]`); on a failed
write the function returns the error at once, before dropping. -/
def persistLoop (wOk : Nat → Bool) :
    List Tx → Nat → State → List Tx → Bool × State × List Tx
  | [], _, s, file => (true, s, file)
  | tx :: rest, i, s, file =>
    if wOk i then
      persistLoop wOk rest (i + 1)
        { s with txMempool := s.txMempool.drop 1 } (file ++ [tx])
    else
      (false, s, file)

/-- Go: `func (s *State) Persist() error` — copy the mempool, then append
each copied entry to the log file in order, dropping the live mempool's
front only after that entry's write succeeded.  Returns the success flag
(`error == nil`), the state after the call and the resulting file
contents. -/
def State.Persist (wOk : Nat → Bool) (s : State) (file : List Tx) :
    Bool × State × List Tx :=
  persistLoop wOk s.txMempool 0 s file

/-! ## Association-list map lemmas -/

theorem lookupA_mapSet (b : Balances) (k : Account) (v : Nat) (a : Account) :
    lookupA (mapSet b k v) a = if a = k then some v else lookupA b a := by
  induction b with
  | nil => simp [mapSet, lookupA]
  | cons kv rest ih =>
    obtain ⟨k', v'⟩ := kv
    by_cases hk : k' = k
    · subst hk
      by_cases ha : a = k' <;> simp [mapSet, lookupA, ha]
    · by_cases ha : a = k'
      · subst ha
        simp [mapSet, lookupA, hk, Ne.symm hk]
      · simp [mapSet, lookupA, hk, ha, ih]

theorem mapGet_mapSet (b : Balances) (k : Account) (v : Nat) (a : Account) :
    mapGet (mapSet b k v) a = if a = k then v else mapGet b a := by
  by_cases ha : a = k <;> simp [mapGet, lookupA_mapSet, ha]

theorem hasKey_mapSet (b : Balances) (k : Account) (v : Nat) (a : Account) :
    hasKey (mapSet b k v) a = (decide (a = k) || hasKey b a) := by
  by_cases ha : a = k <;> simp [hasKey, lookupA_mapSet, ha]

/-! ## Replay, Add and Persist lemmas -/

theorem replayFrames_append (b : Balances) (l1 l2 : List (Option Tx)) :
    replayFrames b (l1 ++ l2) =
      match replayFrames b l1 with
      | .error e => .error e
      | .ok b1 => replayFrames b1 l2 := by
  induction l1 generalizing b with
  | nil => simp [replayFrames]
  | cons fr rest ih =>
    match fr with
    | none => simp [replayFrames]
    | some tx =>
      simp only [List.cons_append, replayFrames]
      cases applyBal b tx with
      | error e => simp
      | ok b' => simpa using ih b'

theorem add_ok (s s' : State) (tx : Tx) (h : State.Add s tx = .ok s') :
    applyBal s.Balances tx = .ok s'.Balances ∧
      s'.txMempool = s.txMempool ++ [tx] := by
  unfold State.Add State.apply at h
  cases hb : applyBal s.Balances tx with
  | error e => rw [hb] at h; exact absurd h (by simp)
  | ok b =>
    rw [hb] at h
    simp only [Except.ok.injEq] at h
    subst h
    exact ⟨rfl, rfl⟩

theorem addAll_ok (txs : List Tx) (s s1 : State) (h : addAll s txs = .ok s1) :
    replayFrames s.Balances (txs.map some) = .ok s1.Balances ∧
      s1.txMempool = s.txMempool ++ txs := by
  induction txs generalizing s with
  | nil =>
    simp only [addAll, Except.ok.injEq] at h
    subst h
    simp [replayFrames]
  | cons tx rest ih =>
    simp only [addAll] at h
    cases ha : State.Add s tx with
    | error e => rw [ha] at h; exact absurd h (by simp)
    | ok s' =>
      rw [ha] at h
      obtain ⟨hbal, hmem⟩ := add_ok s s' tx ha
      obtain ⟨ih1, ih2⟩ := ih s' h
      refine ⟨?_, ?_⟩
      · simp only [List.map_cons, replayFrames, hbal]
        exact ih1
      · rw [ih2, hmem, List.append_assoc]
        rfl

theorem persistLoop_all_ok (m : List Tx) (i : Nat) (s : State)
    (file : List Tx) :
    persistLoop (fun _ => true) m i s file =
      (true, { s with txMempool := s.txMempool.drop m.length }, file ++ m) := by
  induction m generalizing i s file with
  | nil => simp [persistLoop]
  | cons tx rest ih =>
    simp [persistLoop, ih, List.drop_drop, Nat.add_comm 1 rest.length]

theorem persistLoop_fail (wOk : Nat → Bool) (m : List Tx) (k i : Nat)
    (s : State) (file : List Tx) (hk : k < m.length)
    (hok : ∀ j, j < k → wOk (i + j) = true) (hf : wOk (i + k) = false) :
    persistLoop wOk m i s file =
      (false, { s with txMempool := s.txMempool.drop k }, file ++ m.take k) := by
  induction m generalizing k i s file with
  | nil => simp at hk
  | cons tx rest ih =>
    match k with
    | 0 =>
      simp only [Nat.add_zero] at hf
      simp [persistLoop, hf]
    | k' + 1 =>
      have h0 : wOk i = true := by simpa using hok 0 (Nat.succ_pos k')
      simp only [persistLoop, h0, if_pos]
      have hok' : ∀ j, j < k' → wOk (i + 1 + j) = true := by
        intro j hj
        have := hok (j + 1) (by omega)
        simpa [Nat.add_assoc, Nat.add_comm 1 j] using this
      have hf' : wOk (i + 1 + k') = false := by
        have : i + 1 + k' = i + (k' + 1) := by omega
        rw [this]; exact hf
      rw [ih k' (i + 1) _ _ (by simpa using hk) hok' hf']
      simp [List.drop_drop, List.take_succ_cons, Nat.add_comm 1 k']

theorem replayFrames_corrupt (frames : List (Option Tx)) (h : none ∈ frames) :
    ∀ b, ∃ e, replayFrames b frames = .error e := by
  induction frames with
  | nil => simp at h
  | cons fr rest ih =>
    intro b
    match fr with
    | none => exact ⟨.corruptRecord, rfl⟩
    | some tx =>
      have hrest : none ∈ rest := by simpa using h
      cases happ : applyBal b tx with
      | error e => exact ⟨.applyFailed e, by simp [replayFrames, happ]⟩
      | ok b' =>
        obtain ⟨e, he⟩ := ih hrest b'
        exact ⟨e, by simp [replayFrames, happ, he]⟩

/-! ## Claim theorems -/

/-- Claim C2 — atomic rejection: for every state and every non-reward
transaction whose value exceeds the sender's balance (an absent sender reads
as balance zero), `Add` fails with the insufficient-balance error and the
caller's state after the call is exactly the pre-call state: no account
balance and no mempool entry changes. -/
theorem add_atomic_rejection (s : State) (tx : Tx)
    (hr : tx.IsReward = false)
    (hv : mapGet s.Balances tx.From < tx.Value) :
    State.AddResult s tx =
      (s, some ("insufficient balance for " ++ tx.From)) := by
  simp [State.AddResult, State.Add, State.apply, applyBal, hr, hv]

theorem add_atomic_rejection_witness :
    State.AddResult ⟨[("A", 100)], []⟩ ⟨"A", "B", 150, ""⟩ =
      (⟨[("A", 100)], []⟩, some ("insufficient balance for " ++ "A")) :=
  add_atomic_rejection ⟨[("A", 100)], []⟩ ⟨"A", "B", 150, ""⟩ (by decide)
    (by decide)

/-- Claim C3 — non-negative balance invariant: every balance in every state
reachable by successful `Add` calls is non-negative (balances live in the
unsigned domain), and the debit branch of `apply` runs only under the
pre-check `tx.Value <= Balances[tx.From]`, so the unsigned subtraction never
underflows. -/
theorem balances_nonneg :
    (∀ (s0 s : State) (txs : List Tx), addAll s0 txs = .ok s →
      ∀ a, 0 ≤ (mapGet s.Balances a : Int)) ∧
    (∀ (b : Balances) (tx : Tx) (b' : Balances), tx.IsReward = false →
      applyBal b tx = .ok b' → tx.Value ≤ mapGet b tx.From) := by
  constructor
  · intro _ s _ _ a
    exact Int.natCast_nonneg _
  · intro b tx b' hr happ
    by_cases hlt : mapGet b tx.From < tx.Value
    · simp [applyBal, hr, hlt] at happ
    · omega

theorem balances_nonneg_witness :
    (0 ≤ (mapGet [("a", 2), ("b", 3)] "a" : Int)) ∧
      (⟨"a", "b", 3, ""⟩ : Tx).Value ≤ mapGet [("a", 5)] "a" :=
  ⟨balances_nonneg.1 ⟨[("a", 5)], []⟩ ⟨[("a", 2), ("b", 3)], [⟨"a", "b", 3, ""⟩]⟩
      [⟨"a", "b", 3, ""⟩] rfl "a",
    balances_nonneg.2 [("a", 5)] ⟨"a", "b", 3, ""⟩ [("a", 2), ("b", 3)]
      (by decide) rfl⟩

/-- Claim C4, counterexample: with `Balances["b"] = 2 ^ 64 - 1`, the reward
`{from := "a", to := "b", value := 1}` is accepted but leaves `"b"` with
balance `0`, not the exact increase `(2 ^ 64 - 1) + 1` the claim demands —
the Go `uint` credit wrapped. -/
theorem add_reward_exact_increase_cex :
    State.Add ⟨[("b", uintW - 1)], []⟩ ⟨"a", "b", 1, "reward"⟩ =
      .ok ⟨[("b", 0)], [⟨"a", "b", 1, "reward"⟩]⟩ ∧
    uintW - 1 + 1 ≠ 0 := by
  refine ⟨?_, by decide⟩
  simp [State.Add, State.apply, applyBal, Tx.IsReward, mapGet, lookupA, mapSet,
    uintW]

/-- Claim C4 as amended: a reward transaction always succeeds regardless of
the sender's balance and is appended to the mempool; the recipient's balance
becomes `(old + v) mod 2 ^ 64` — an increase of exactly `v` whenever
`old + v` fits in the Go `uint` width — and the balance of every account
other than the recipient (in particular the sender, when distinct from the
recipient) is untouched. -/
theorem add_reward_amended (s : State) (X Y : Account) (v : Nat) :
    ∃ s', State.Add s ⟨X, Y, v, "reward"⟩ = .ok s' ∧
      mapGet s'.Balances Y = (mapGet s.Balances Y + v) % uintW ∧
      (mapGet s.Balances Y + v < uintW →
        mapGet s'.Balances Y = mapGet s.Balances Y + v) ∧
      (∀ a, a ≠ Y → mapGet s'.Balances a = mapGet s.Balances a) ∧
      s'.txMempool = s.txMempool ++ [⟨X, Y, v, "reward"⟩] := by
  refine ⟨{ Balances := mapSet s.Balances Y ((mapGet s.Balances Y + v) % uintW),
            txMempool := s.txMempool ++ [⟨X, Y, v, "reward"⟩] },
    ?_, ?_, ?_, ?_, rfl⟩
  · simp [State.Add, State.apply, applyBal, Tx.IsReward]
  · simp [mapGet_mapSet]
  · intro h
    simp [mapGet_mapSet, Nat.mod_eq_of_lt h]
  · intro a ha
    simp [mapGet_mapSet, ha]

/-- Claim C6 — corrupt-record abort: if any frame of the log fails to
decode, `NewStateFromDisk` returns an error and produces no state; a partial
replay is never reported as success. -/
theorem corrupt_record_aborts (gen : Genesis) (frames : List (Option Tx))
    (h : none ∈ frames) :
    ∃ e, NewStateFromDisk gen (some frames) = .error e := by
  obtain ⟨e, he⟩ := replayFrames_corrupt frames h (initBalances gen.Balances)
  exact ⟨e, by simp [NewStateFromDisk, he]⟩

theorem corrupt_record_aborts_witness :
    ∃ e, NewStateFromDisk ⟨"t", "c", [("a", 1)]⟩
      (some [some ⟨"x", "y", 0, ""⟩, none]) = .error e :=
  corrupt_record_aborts ⟨"t", "c", [("a", 1)]⟩ [some ⟨"x", "y", 0, ""⟩, none]
    (by simp)

/-- Claim C7 — replay determinism: replaying the same log from the same
genesis twice yields the same result, and the balances produced by `apply`
depend only on the current balances and the transaction (two states sharing
a balance table map to the same outcome, whatever their mempools). -/
theorem replay_deterministic (gen : Genesis) (L : List (Option Tx)) :
    NewStateFromDisk gen (some L) = NewStateFromDisk gen (some L) ∧
    ∀ (s1 s2 : State) (tx : Tx), s1.Balances = s2.Balances →
      Except.map State.Balances (State.apply s1 tx) =
        Except.map State.Balances (State.apply s2 tx) := by
  refine ⟨rfl, ?_⟩
  intro s1 s2 tx h
  rw [State.apply, State.apply, h]
  cases applyBal s2.Balances tx <;> rfl

theorem replay_deterministic_witness :
    NewStateFromDisk ⟨"", "", [("g", 7)]⟩ (some [some ⟨"g", "h", 7, ""⟩]) =
      NewStateFromDisk ⟨"", "", [("g", 7)]⟩ (some [some ⟨"g", "h", 7, ""⟩]) ∧
    Except.map State.Balances (State.apply ⟨[("z", 1)], []⟩ ⟨"z", "w", 1, ""⟩) =
      Except.map State.Balances
        (State.apply ⟨[("z", 1)], [⟨"q", "q", 0, ""⟩]⟩ ⟨"z", "w", 1, ""⟩) :=
  ⟨(replay_deterministic ⟨"", "", [("g", 7)]⟩ [some ⟨"g", "h", 7, ""⟩]).1,
    (replay_deterministic ⟨"", "", [("g", 7)]⟩ [some ⟨"g", "h", 7, ""⟩]).2
      ⟨[("z", 1)], []⟩ ⟨[("z", 1)], [⟨"q", "q", 0, ""⟩]⟩ ⟨"z", "w", 1, ""⟩ rfl⟩

/-- Claim C8 — store unavailability is fatal: the log is opened for
append + read without `O_CREATE`, so when it cannot be opened (modelled as
the `none` log) `NewStateFromDisk` fails outright and returns no state. -/
theorem store_unavailable_fatal (gen : Genesis) :
    NewStateFromDisk gen none = .error .storeUnavailable := rfl

/-- Claim C1 — round trip: starting from a state freshly replayed from a
genesis snapshot and a log, any sequence of successful `Add` calls followed
by a `Persist` whose writes all succeed empties the mempool and appends
exactly the added transactions to the log; a fresh `NewStateFromDisk` from
the same genesis and the resulting log reconstructs the pre-persist
in-memory `Balances` exactly. -/
theorem replay_round_trip (gen : Genesis) (file0 txs : List Tx) (s0 s1 : State)
    (h0 : NewStateFromDisk gen (some (file0.map some)) = .ok s0)
    (h1 : addAll s0 txs = .ok s1) :
    State.Persist (fun _ => true) s1 file0 =
      (true, { s1 with txMempool := [] }, file0 ++ txs) ∧
    NewStateFromDisk gen (some ((file0 ++ txs).map some)) =
      .ok { Balances := s1.Balances, txMempool := [] } := by
  obtain ⟨hrepT, hmem⟩ := addAll_ok txs s0 s1 h1
  cases hrep : replayFrames (initBalances gen.Balances) (List.map some file0) with
  | error e => simp [NewStateFromDisk, hrep] at h0
  | ok b0 =>
    have hs0 : s0 = { Balances := b0, txMempool := [] } := by
      simp only [NewStateFromDisk, hrep, Except.ok.injEq] at h0
      exact h0.symm
    have hmem' : s1.txMempool = txs := by
      rw [hs0] at hmem
      simpa using hmem
    constructor
    · rw [State.Persist, persistLoop_all_ok]
      simp [hmem', List.drop_length]
    · have hrep2 : replayFrames b0 (txs.map some) = .ok s1.Balances := by
        rw [hs0] at hrepT
        exact hrepT
      simp [NewStateFromDisk, List.map_append, replayFrames_append, hrep, hrep2]

theorem replay_round_trip_witness :
    State.Persist (fun _ => true)
      ⟨[("a", 6), ("b", 4)], [⟨"a", "b", 4, ""⟩]⟩ [] =
      (true, ⟨[("a", 6), ("b", 4)], []⟩, [⟨"a", "b", 4, ""⟩]) ∧
    NewStateFromDisk ⟨"t", "c", [("a", 10)]⟩ (some [some ⟨"a", "b", 4, ""⟩]) =
      .ok ⟨[("a", 6), ("b", 4)], []⟩ :=
  replay_round_trip ⟨"t", "c", [("a", 10)]⟩ [] [⟨"a", "b", 4, ""⟩]
    ⟨[("a", 10)], []⟩ ⟨[("a", 6), ("b", 4)], [⟨"a", "b", 4, ""⟩]⟩ rfl rfl

/-- Claim C5 — order-preserving drain: `Persist` appends the snapshot of the
mempool to the log in FIFO order, removing one entry from the mempool front
per confirmed write; if the write of the entry at position `k` fails, the
call reports failure, the log has received exactly the first `k` entries
(each appended once), and the mempool holds exactly the entries from
position `k` on, in order, for retry. -/
theorem persist_order_preserving_drain (wOk : Nat → Bool) (s : State)
    (file : List Tx) (k : Nat) (hk : k < s.txMempool.length)
    (hok : ∀ j, j < k → wOk j = true) (hf : wOk k = false) :
    State.Persist wOk s file =
      (false, { s with txMempool := s.txMempool.drop k },
        file ++ s.txMempool.take k) := by
  rw [State.Persist]
  exact persistLoop_fail wOk s.txMempool k 0 s file hk (by simpa using hok)
    (by simpa using hf)

theorem persist_order_preserving_drain_witness :
    State.Persist (fun i => decide (i = 0))
      ⟨[("a", 9)], [⟨"a", "b", 1, ""⟩, ⟨"a", "b", 2, ""⟩, ⟨"a", "b", 3, ""⟩]⟩
      [] =
      (false,
        ⟨[("a", 9)], [⟨"a", "b", 2, ""⟩, ⟨"a", "b", 3, ""⟩]⟩,
        [⟨"a", "b", 1, ""⟩]) :=
  persist_order_preserving_drain (fun i => decide (i = 0))
    ⟨[("a", 9)], [⟨"a", "b", 1, ""⟩, ⟨"a", "b", 2, ""⟩, ⟨"a", "b", 3, ""⟩]⟩
    [] 1 (by decide) (by decide) (by decide)

/-- Claim C9 — zero-value transfers always succeed: a non-reward transaction
with value `0` passes the guard (`0 > balance` is never true), leaves every
balance numerically unchanged, inserts the `from` and `to` keys into the
balance map (with balance `0` when previously absent, since Go's compound
map assignment writes the key back), and appends the transaction to the
mempool.  The hypothesis `hwf` is the Go `uint` representation invariant:
every stored balance is below `2 ^ 64`. -/
theorem add_zero_value (s : State) (tx : Tx)
    (hr : tx.IsReward = false) (hv : tx.Value = 0)
    (hwf : ∀ a, mapGet s.Balances a < uintW) :
    ∃ s', State.Add s tx = .ok s' ∧
      (∀ a, mapGet s'.Balances a = mapGet s.Balances a) ∧
      hasKey s'.Balances tx.From = true ∧
      hasKey s'.Balances tx.To = true ∧
      s'.txMempool = s.txMempool ++ [tx] := by
  have hguard : ¬ mapGet s.Balances tx.From < tx.Value := by
    rw [hv]
    exact Nat.not_lt_zero _
  refine ⟨⟨mapSet (mapSet s.Balances tx.From (mapGet s.Balances tx.From - tx.Value)) tx.To ((mapGet (mapSet s.Balances tx.From (mapGet s.Balances tx.From - tx.Value)) tx.To + tx.Value) % uintW), s.txMempool ++ [tx]⟩, ?_, ?_, ?_, ?_, rfl⟩
  · simp [State.Add, State.apply, applyBal, hr, hguard]
  · intro a
    simp only [hv, Nat.sub_zero, Nat.add_zero, mapGet_mapSet]
    split_ifs with h1 h2 h3
    · subst h1
      rw [h2]
      exact Nat.mod_eq_of_lt (hwf _)
    · subst h1
      exact Nat.mod_eq_of_lt (hwf _)
    · subst h3
      rfl
    · rfl
  · simp [hasKey_mapSet]
  · simp [hasKey_mapSet]

theorem add_zero_value_witness :
    ∃ s', State.Add ⟨[], []⟩ ⟨"p", "q", 0, ""⟩ = .ok s' ∧
      (∀ a, mapGet s'.Balances a = mapGet ([] : Balances) a) ∧
      hasKey s'.Balances "p" = true ∧
      hasKey s'.Balances "q" = true ∧
      s'.txMempool = [⟨"p", "q", 0, ""⟩] :=
  add_zero_value ⟨[], []⟩ ⟨"p", "q", 0, ""⟩ (by decide) rfl
    (fun a => by norm_num [mapGet, lookupA, uintW])

/-- Claim C10 — credit arithmetic wraps: balances are Go `uint` values, so
the credit `Balances[to] += value` is computed modulo `2 ^ 64` with no
overflow check; in particular a reward whose value plus the recipient's
balance reaches `2 ^ 64` is accepted and silently wraps the recipient's
balance (here `(2 ^ 64 - 1) + 2` wraps to `1`). -/
theorem credit_wraps :
    (∀ (s : State) (X Y : Account) (v : Nat),
      ∃ s', State.Add s ⟨X, Y, v, "reward"⟩ = .ok s' ∧
        mapGet s'.Balances Y = (mapGet s.Balances Y + v) % uintW) ∧
    State.Add ⟨[("r", uintW - 1)], []⟩ ⟨"m", "r", 2, "reward"⟩ =
      .ok ⟨[("r", 1)], [⟨"m", "r", 2, "reward"⟩]⟩ ∧
    uintW ≤ uintW - 1 + 2 := by
  refine ⟨?_, ?_, by decide⟩
  · intro s X Y v
    refine ⟨{ Balances := mapSet s.Balances Y ((mapGet s.Balances Y + v) % uintW),
              txMempool := s.txMempool ++ [⟨X, Y, v, "reward"⟩] }, ?_, ?_⟩
    · simp [State.Add, State.apply, applyBal, Tx.IsReward]
    · simp [mapGet_mapSet]
  · simp [State.Add, State.apply, applyBal, Tx.IsReward, mapGet, lookupA,
      mapSet, uintW]

end BlockchainInGo
